import Mathlib

/-!
Verification development for the artwork-resolution engine of the
Houseofglen repository: a shallow embedding in Lean 4 of the string
normalization, match scoring, cache/dedup logic, priority scheduling,
fallback synthesis and bulk-update operations found in
`src/services/itunesApiService.ts`, `src/services/fastItunesService.ts`,
`src/services/audioDbService.ts` (`src/unnamed/part_003`),
`src/services/albumCoverUpdater.ts` (`src/unnamed/part_003`),
`src/hooks/useFastAlbumCovers.ts`, `src/hooks/useLazyAlbumCovers.ts` and
`src/hooks/useProgressiveAlbumCovers.ts`, together with theorems settling
the specified properties.

Conventions of the embedding:
- JavaScript strings are modelled as Lean `String`, manipulated through
  their underlying `List Char` so that every operation reduces in the
  kernel.  `charCodeAt` is modelled as the Unicode scalar value, which
  agrees with the UTF-16 code unit on the Basic Multilingual Plane (all
  strings in the repository are in that range).
- JavaScript 32-bit integer coercion (`x & x`, `x << 5`) is modelled with
  explicit wrap-around arithmetic on `Int` (`toInt32`).
- Asynchronous code is modelled either sequentially (one resolution call
  as a pure state transformer, with the outcome of the network fetch an
  explicit parameter) or, where the claim is about concurrency, as a
  small-step machine whose schedule of caller interleavings is an
  explicit list; this matches the single-threaded cooperative model of
  the JavaScript event loop.
- Fallible operations never escape: the source catches every error at
  the boundary, so the embedded functions are total and take the failure
  case as an explicit constructor of an outcome type.
-/

namespace HouseOfGlen

/-! ## String primitives shared by the services -/

/-- JavaScript `\w` character class (ASCII letters, digits and underscore),
as used by the regex `/[^\w\s]/g` in `cleanSearchTerm`. -/
def isWordChar (c : Char) : Bool :=
  c.isAlphanum || c = '_'

/-- Lower-casing a string character by character; models JavaScript
`String.prototype.toLowerCase` for the ASCII strings the services use. -/
def jsToLower (s : String) : String :=
  String.mk (s.data.map Char.toLower)

/-- One pass of JavaScript `replace(/\s+/g, ' ')`: every maximal run of
whitespace becomes a single space.  The boolean records whether the
previously emitted character was (part of) a whitespace run. -/
def collapseWs : Bool → List Char → List Char
  | _, [] => []
  | prevWs, c :: rest =>
    if c.isWhitespace then
      if prevWs then collapseWs true rest
      else ' ' :: collapseWs true rest
    else c :: collapseWs false rest

/-- Trimming leading and trailing whitespace from a character list;
models JavaScript `String.prototype.trim`. -/
def trimChars (l : List Char) : List Char :=
  ((l.dropWhile Char.isWhitespace).reverse.dropWhile Char.isWhitespace).reverse

/-- `iTunesAPIService.cleanSearchTerm` / `FastItunesService.cleanTerm`:
lower-case, strip every character that is neither a word character nor
whitespace, collapse whitespace runs to single spaces, and trim. -/
def cleanSearchTerm (term : String) : String :=
  String.mk (trimChars (collapseWs false
    ((jsToLower term).data.filter (fun c => isWordChar c || c.isWhitespace))))

/-- Substring containment on character lists, computable counterpart of
`List.IsInfix` (`pat <:+: l`). -/
def listHasInfix (pat : List Char) : List Char → Bool
  | [] => pat.isEmpty
  | c :: rest => pat.isPrefixOf (c :: rest) || listHasInfix pat rest

/-- JavaScript `s.includes(sub)`: `sub` occurs as a contiguous substring
of `s`. -/
def jsIncludes (s sub : String) : Bool :=
  listHasInfix sub.data s.data

/-- JavaScript `String.prototype.replace(pat, rep)` with a string
pattern: replaces only the first occurrence of `pat`, scanning left to
right. -/
def replaceFirstAux (pat rep : List Char) : List Char → List Char
  | [] => []
  | c :: rest =>
    if pat.isPrefixOf (c :: rest) then rep ++ (c :: rest).drop pat.length
    else c :: replaceFirstAux pat rep rest

/-- String-level wrapper for `replaceFirstAux`. -/
def jsReplaceFirst (s pat rep : String) : String :=
  String.mk (replaceFirstAux pat.data rep.data s.data)

/-- The artwork-resolution upgrade performed inline in
`iTunesAPIService.searchTrack`, `FastItunesService.getAlbumCover` and
`AudioDbService.searchiTunes`:
`artworkUrl100.replace('100x100bb', '600x600bb')`. -/
def upgradeArtwork (url : String) : String :=
  jsReplaceFirst url "100x100bb" "600x600bb"

/-! ## Fallback synthesis (`iTunesAPIService.getFallbackArtwork`) -/

/-- Coercion of an integer to the range of a JavaScript 32-bit signed
integer, as performed by `hash & hash` and by the `<<` operator. -/
def toInt32 (x : Int) : Int :=
  (x + 2 ^ 31) % 2 ^ 32 - 2 ^ 31

/-- One iteration of the loop in `iTunesAPIService.simpleHash`:
`hash = ((hash << 5) - hash) + char; hash = hash & hash`.  The shift
coerces its operand to int32 and wraps; the invariant that `hash` is
already an int32 when the iteration starts is maintained by the final
coercion. -/
def hashStep (hash : Int) (code : Nat) : Int :=
  toInt32 (toInt32 (hash * 32) - hash + code)

/-- `iTunesAPIService.simpleHash`: fold `hashStep` over the character
codes, then `Math.abs`. -/
def simpleHash (str : String) : Nat :=
  (str.data.foldl (fun h ch => hashStep h ch.toNat) 0).natAbs

/-- The base64 alphabet used by `btoa`. -/
def b64char (n : Nat) : Char :=
  "ABCDEFGHIJKLMNOPQRSTUVWXYZabcdefghijklmnopqrstuvwxyz0123456789+/".data.getD n '='

/-- Base64 encoding of a byte sequence, three bytes at a time with `=`
padding; models the browser `btoa` applied to a latin1 string. -/
def b64encode : List Nat → List Char
  | [] => []
  | [a] => [b64char (a / 4), b64char (a % 4 * 16), '=', '=']
  | [a, b] => [b64char (a / 4), b64char (a % 4 * 16 + b / 16), b64char (b % 16 * 4), '=']
  | a :: b :: c :: rest =>
    b64char (a / 4) :: b64char (a % 4 * 16 + b / 16) ::
      b64char (b % 16 * 4 + c / 64) :: b64char (c % 64) :: b64encode rest

/-- Browser `btoa` on a string of latin1 code points (every character of
the synthesized SVG is ASCII). -/
def btoa (s : String) : String :=
  String.mk (b64encode (s.data.map Char.toNat))

/-- `iTunesAPIService.truncate`:
`text.length > maxLength ? text.substring(0, maxLength - 3) + '...' : text`. -/
def truncate (text : String) (maxLength : Nat) : String :=
  if text.length > maxLength then String.mk (text.data.take (maxLength - 3)) ++ "..."
  else text

/-- The SVG template literal inside `iTunesAPIService.getFallbackArtwork`,
with the hue/saturation/lightness values and the truncated artist and
track titles interpolated exactly as in the source. -/
def fallbackSvg (hue saturation lightness : Nat) (artist trackTitle : String) : String :=
  "\n      <svg width=\"600\" height=\"600\" viewBox=\"0 0 600 600\" xmlns=\"http://www.w3.org/2000/svg\">\n        <defs>\n          <linearGradient id=\"grad1\" x1=\"0%\" y1=\"0%\" x2=\"100%\" y2=\"100%\">\n            <stop offset=\"0%\" style=\"stop-color:hsl(" ++
  s!"{hue}, {saturation}%, {lightness + 10}%);stop-opacity:1\" />\n            <stop offset=\"100%\" style=\"stop-color:hsl({(hue + 60) % 360}, {saturation}%, {lightness}%);stop-opacity:1\" />\n          </linearGradient>\n        </defs>\n        <rect width=\"600\" height=\"600\" fill=\"url(#grad1)\"/>\n        <circle cx=\"300\" cy=\"300\" r=\"120\" fill=\"none\" stroke=\"rgba(255,255,255,0.3)\" stroke-width=\"3\"/>\n        <circle cx=\"300\" cy=\"300\" r=\"80\" fill=\"none\" stroke=\"rgba(255,255,255,0.2)\" stroke-width=\"2\"/>\n        <circle cx=\"300\" cy=\"300\" r=\"40\" fill=\"rgba(255,255,255,0.2)\"/>\n        <circle cx=\"300\" cy=\"300\" r=\"15\" fill=\"rgba(255,255,255,0.4)\"/>\n        <text x=\"300\" y=\"480\" text-anchor=\"middle\" fill=\"rgba(255,255,255,0.8)\" font-family=\"Arial, sans-serif\" font-size=\"24\" font-weight=\"300\">{truncate artist 20}</text>\n        <text x=\"300\" y=\"520\" text-anchor=\"middle\" fill=\"rgba(255,255,255,0.6)\" font-family=\"Arial, sans-serif\" font-size=\"18\" font-weight=\"300\">{truncate trackTitle 25}</text>\n      </svg>\n    "

/-- `iTunesAPIService.getFallbackArtwork`: a deterministic placeholder
image whose gradient colors are derived from `simpleHash` of
`artist + trackTitle` and which embeds the truncated artist and track
strings, base64-encoded as a `data:` URI. -/
def getFallbackArtwork (artist trackTitle : String) : String :=
  let hash := simpleHash (artist ++ trackTitle)
  let hue := hash % 360
  let saturation := 30 + hash % 40
  let lightness := 20 + hash % 30
  "data:image/svg+xml;base64," ++ btoa (fallbackSvg hue saturation lightness artist trackTitle)

/-! ## Match scoring (`iTunesAPIService.findBestMatch`) -/

/-- A candidate record of the iTunes search response, as declared in
`itunesApiService.ts` (interface `iTunesTrack`).  An absent artwork URL
is modelled by the empty string, which is exactly the JavaScript falsy
case tested by `if (result.artworkUrl100)`. -/
structure ITunesTrack where
  trackId : Int
  artistName : String
  trackName : String
  collectionName : String
  artworkUrl30 : String
  artworkUrl60 : String
  artworkUrl100 : String
  releaseDate : String
  primaryGenreName : String
deriving DecidableEq

/-- The two artist additions of the scoring loop in `findBestMatch`:
`+10` when either normalized name contains the other, `+20` when they are
equal.  `resultArtist` is the cleaned candidate artist, `artist` the
cleaned requested artist. -/
def artistCriteria (resultArtist artist : String) : Nat :=
  (if jsIncludes resultArtist artist || jsIncludes artist resultArtist then 10 else 0) +
  (if resultArtist = artist then 20 else 0)

/-- The two track additions of the scoring loop: `+8` for substring
containment either way, `+15` for equality. -/
def trackCriteria (resultTrack track : String) : Nat :=
  (if jsIncludes resultTrack track || jsIncludes track resultTrack then 8 else 0) +
  (if resultTrack = track then 15 else 0)

/-- The artwork-presence addition: `+5` when `artworkUrl100` is truthy. -/
def artworkBonus (result : ITunesTrack) : Nat :=
  if result.artworkUrl100 ≠ "" then 5 else 0

/-- The total score of one candidate in `findBestMatch`; the source adds
the five summands in sequence to a mutable `score`, which is the same
total. -/
def scoreResult (result : ITunesTrack) (artist track : String) : Nat :=
  artistCriteria (cleanSearchTerm result.artistName) artist +
  trackCriteria (cleanSearchTerm result.trackName) track +
  artworkBonus result

/-- Stable insertion of a scored candidate into a descending-by-score
list: a new element goes after every existing element of equal or higher
score.  This is the ordering produced by the stable JavaScript
`sort((a, b) => b.score - a.score)`. -/
def insertDesc (p : ITunesTrack × Nat) : List (ITunesTrack × Nat) → List (ITunesTrack × Nat)
  | [] => [p]
  | q :: rest => if q.2 < p.2 then p :: q :: rest else q :: insertDesc p rest

/-- Stable descending sort by score (insertion sort). -/
def sortByScoreDesc (l : List (ITunesTrack × Nat)) : List (ITunesTrack × Nat) :=
  l.foldr insertDesc []

/-- `iTunesAPIService.findBestMatch`: score every result, sort
descending, and return the top candidate only when its score strictly
exceeds 5. -/
def findBestMatch (results : List ITunesTrack) (artist track : String) : Option ITunesTrack :=
  if results.length = 0 then none
  else
    match (sortByScoreDesc
        (results.map (fun result => (result, scoreResult result artist track)))).head? with
    | some bestMatch => if bestMatch.2 > 5 then some bestMatch.1 else none
    | none => none

/-! ## The sequential view of `iTunesAPIService.searchTrack`

One call of `searchTrack` for a fixed `(artist, track)` key, seen as a
pure transformer of that key's cache slot.  The outcome of the network
fetch is an explicit parameter: `err` stands for any thrown error (HTTP
failure via `!response.ok`, transport failure, malformed JSON), all of
which the source catches and converts to a `null` return; `ok data` is a
parsed result list.  The returned triple is (value returned to the
caller, cache slot after the call, number of external calls issued). -/

/-- Outcome of the `fetch` + JSON parse in `searchTrack`. -/
inductive FetchOutcome
  | err
  | ok (data : List ITunesTrack)
deriving DecidableEq

/-- One sequential call of `iTunesAPIService.searchTrack` for a single
key, given that key's current cache slot and the fetch outcome. -/
def searchTrack (cache : Option String) (o : FetchOutcome) (artist track : String) :
    Option String × Option String × Nat :=
  match cache with
  | some v => (some v, some v, 0)
  | none =>
    match o with
    | .err => (none, none, 1)
    | .ok data =>
      match findBestMatch data (cleanSearchTerm artist) (cleanSearchTerm track) with
      | some bestMatch =>
        if bestMatch.artworkUrl100 ≠ "" then
          let highQualityArtwork := upgradeArtwork bestMatch.artworkUrl100
          (some highQualityArtwork, some highQualityArtwork, 1)
        else (none, none, 1)
      | none => (none, none, 1)

/-! ## Concurrent interleavings of resolutions for one key

The JavaScript event loop runs the synchronous prefix of each call
atomically; suspension happens only at `await`.  A machine state holds
the shared per-key data (cache slot, pending flag, external-call count)
and one phase per caller; a schedule is the list of caller indices in
the order the event loop runs them.  Each caller index may occur several
times: the first occurrence runs the synchronous prefix up to the first
`await`, later occurrences run the continuation after the awaited
operation settles.

`iTunesAPIService.searchTrack` checks only the cache in its synchronous
prefix: there is no table of in-flight requests, so the external call is
already issued when the first `await fetch(url)` suspends. -/

/-- Phase of one concurrent caller of `iTunesAPIService.searchTrack`. -/
inductive STPhase
  | ready
  | inflight
  | settled (r : Option String)
deriving DecidableEq

/-- Shared state for one key across concurrent `searchTrack` callers. -/
structure STState where
  cache : Option String
  calls : Nat
  phases : List STPhase
deriving DecidableEq

/-- One scheduled step of caller `i` of `searchTrack`.  In phase `ready`
the synchronous prefix runs: cache hit returns immediately, otherwise the
fetch is issued (`calls + 1`) and the caller suspends.  In phase
`inflight` the fetch settles with outcome `ext` (`none` for any caught
error or absent match, `some u` for a found artwork already upgraded to
600x600); a successful value is written to the cache. -/
def stStep (ext : Option String) (s : STState) (i : Nat) : STState :=
  match s.phases[i]? with
  | none => s
  | some .ready =>
    match s.cache with
    | some v => { s with phases := s.phases.set i (.settled (some v)) }
    | none => { s with calls := s.calls + 1, phases := s.phases.set i .inflight }
  | some .inflight =>
    match ext with
    | some u => { s with cache := some u, phases := s.phases.set i (.settled (some u)) }
    | none => { s with phases := s.phases.set i (.settled none) }
  | some (.settled _) => s

/-- Running a schedule of `searchTrack` caller steps. -/
def stRun (ext : Option String) (s : STState) (sched : List Nat) : STState :=
  sched.foldl (stStep ext) s

/-- Initial state for `n` concurrent `searchTrack` callers of one key. -/
def stInit (n : Nat) : STState :=
  ⟨none, 0, List.replicate n .ready⟩

/-- Phase of one concurrent caller of `AudioDbService.getAlbumCover`. -/
inductive ADPhase
  | ready
  | owner
  | joiner
  | settled (r : String)
deriving DecidableEq

/-- Shared state for one key across concurrent
`AudioDbService.getAlbumCover` callers: the `cache` slot, whether a
`requestQueue` entry for the key exists (`pending`), and the number of
external lookups started. -/
structure ADState where
  cache : Option String
  pending : Bool
  calls : Nat
  phases : List ADPhase
deriving DecidableEq

/-- One scheduled step of caller `i` of `AudioDbService.getAlbumCover`.
The synchronous prefix (phase `ready`) checks the cache, then the
`requestQueue`: a hit returns, an existing entry is joined, otherwise
the caller registers the request in the queue and starts the lookup —
check and registration run atomically before the first `await`.  The
`owner` continuation runs when `fetchAlbumCoverFromiTunes` settles with
value `ext` (that promise never rejects: every error inside it is caught
and becomes the placeholder): it writes the cache and clears the queue
entry.  A `joiner` awaits the same promise and therefore resumes, with
the same value, only after the owner has settled. -/
def adStep (ext : String) (s : ADState) (i : Nat) : ADState :=
  match s.phases[i]? with
  | none => s
  | some .ready =>
    match s.cache with
    | some v => { s with phases := s.phases.set i (.settled v) }
    | none =>
      if s.pending then { s with phases := s.phases.set i .joiner }
      else { s with pending := true, calls := s.calls + 1, phases := s.phases.set i .owner }
  | some .owner =>
    { s with cache := some ext, pending := false, phases := s.phases.set i (.settled ext) }
  | some .joiner =>
    match s.cache with
    | some v => { s with phases := s.phases.set i (.settled v) }
    | none => s
  | some (.settled _) => s

/-- Running a schedule of `getAlbumCover` caller steps. -/
def adRun (ext : String) (s : ADState) (sched : List Nat) : ADState :=
  sched.foldl (adStep ext) s

/-- Initial state for `n` concurrent `getAlbumCover` callers of one
key. -/
def adInit (n : Nat) : ADState :=
  ⟨none, false, 0, List.replicate n .ready⟩

/-! ## Items and hook-level state

`Song` is the item type of `src/types/Song.ts`; the optional fields are
modelled with `Option`.  `AlbumData` from `data/albumsDatabase.ts` has
the same fields. -/

/-- The `Song` interface of `src/types/Song.ts`. -/
structure Song where
  id : String
  title : String
  artist : String
  albumCover : String
  youtubeId : String
  albumName : Option String
  year : Option Nat
deriving DecidableEq

/-- The `AlbumData` interface of `data/albumsDatabase.ts`. -/
structure AlbumData where
  id : String
  title : String
  artist : String
  youtubeId : String
  albumCover : String
  albumName : Option String
  year : Option Nat
deriving DecidableEq

/-- JavaScript `s.startsWith(p)`. -/
def jsStartsWith (s p : String) : Bool :=
  p.data.isPrefixOf s.data

/-- JavaScript `Map.prototype.set` on an association list: overwrite an
existing binding in place or append a new one. -/
def mapSet (m : List (String × String)) (k v : String) : List (String × String) :=
  match m with
  | [] => [(k, v)]
  | (k', v') :: rest => if k' = k then (k, v) :: rest else (k', v') :: mapSet rest k v

/-- JavaScript `Map.prototype.get` on an association list. -/
def lookupCover (m : List (String × String)) (k : String) : Option String :=
  match m with
  | [] => none
  | (k', v') :: rest => if k' = k then some v' else lookupCover rest k

/-! ## `useFastAlbumCovers` (`src/hooks/useFastAlbumCovers.ts`) -/

/-- `getCacheKey` of `useFastAlbumCovers`:
`${song.artist.toLowerCase()}-${song.title.toLowerCase()}` (the same
shape as the `cacheKey` inside `iTunesAPIService.searchTrack` and
`FastItunesService.getAlbumCover`). -/
def getCacheKey (song : Song) : String :=
  jsToLower song.artist ++ "-" ++ jsToLower song.title

/-- State of the `useFastAlbumCovers` hook relevant to resolution:
the `loadedCovers` map and the `attemptedLoads` set.  The transient
`loadingQueue` is empty between completed `loadCover` calls and is
omitted from this sequential (one call at a time) view. -/
structure FastState where
  loadedCovers : List (String × String)
  attemptedLoads : List String
deriving DecidableEq

/-- One completed `loadCover` call of `useFastAlbumCovers` for `song`.
`cover` is the value resolved by `fastItunesService.getAlbumCover`
(`none` both for "no artwork found" and for a thrown error, which the
hook catches).  The returned number counts invocations of the service:
a key already attempted or loaded is skipped without any call, otherwise
the service is invoked once and the key is marked attempted in the
`finally` block regardless of success. -/
def loadCover (st : FastState) (song : Song) (cover : Option String) : FastState × Nat :=
  let cacheKey := getCacheKey song
  if st.attemptedLoads.contains cacheKey || (st.loadedCovers.any (fun p => p.1 == cacheKey)) then
    (st, 0)
  else
    match cover with
    | some c =>
      ({ loadedCovers := mapSet st.loadedCovers cacheKey c,
         attemptedLoads := st.attemptedLoads ++ [cacheKey] }, 1)
    | none =>
      ({ st with attemptedLoads := st.attemptedLoads ++ [cacheKey] }, 1)

/-- The priority plan of the loading effect in `useFastAlbumCovers`
(lines 70-109): indices contributed by one `radius` iteration of the
`for` loop — the previous index when it is in range, then the next
index when it is in range.  `n` is `songs.length`. -/
def ringAt (n centerIndex radius : Nat) : List Nat :=
  (if radius ≤ centerIndex ∧ centerIndex - radius < n then [centerIndex - radius] else []) ++
  (if centerIndex + radius < n then [centerIndex + radius] else [])

/-- The complete planned submission order of the priority loading
effect: the center song first, then the `radius = 1 .. preloadRadius`
rings. -/
def planOrder (n centerIndex preloadRadius : Nat) : List Nat :=
  (if centerIndex < n then [centerIndex] else []) ++
  (List.range' 1 preloadRadius).flatMap (ringAt n centerIndex)

/-- Absolute distance of index `a` from the focus index. -/
def distFrom (centerIndex a : Nat) : Nat :=
  if a ≤ centerIndex then centerIndex - a else a - centerIndex

/-- The ordering the priority plan satisfies between two planned
indices: strictly smaller distance from the focus, or equal distance
with the smaller index first. -/
def planRel (centerIndex a b : Nat) : Prop :=
  distFrom centerIndex a < distFrom centerIndex b ∨
  (distFrom centerIndex a = distFrom centerIndex b ∧ a < b)

/-- `attemptedLoads`-set insertion: the set only ever grows, one
canonical key at a time. -/
def markAttempted (attempted : List String) (k : String) : List String :=
  if attempted.contains k then attempted else attempted ++ [k]

/-- The `attemptedLoads` set after a sequence of settled `loadCover`
calls whose canonical keys are listed in `trace`, in completion
order. -/
def runAttempts (attempted : List String) (trace : List String) : List String :=
  trace.foldl markAttempted attempted

/-- `loadingProgress` of `useFastAlbumCovers`:
`totalSongs > 0 ? (attemptedCount / totalSongs) * 100 : 0`.  The
JavaScript floating-point division is modelled exactly over ℚ. -/
def loadingProgress (attemptedCount totalSongs : Nat) : ℚ :=
  if 0 < totalSongs then ((attemptedCount : ℚ) / (totalSongs : ℚ)) * 100 else 0

/-! ## `useLazyAlbumCovers` (`src/hooks/useLazyAlbumCovers.ts`) -/

/-- The per-song key of `useLazyAlbumCovers`:
`${song.artist}-${song.title}` (no lower-casing in this hook). -/
def songKey (song : Song) : String :=
  song.artist ++ "-" ++ song.title

/-- The `LazyLoadState` of `useLazyAlbumCovers` (the derived
`loadedCount` field is `loadedCovers.size` and is left implicit). -/
structure LazyState where
  loadedCovers : List (String × String)
  loadingCovers : List String
  failedCovers : List String
deriving DecidableEq

/-- Outcome of the optional image-preload step of `loadAlbumCover`
(`new Image()` plus a 10-second timeout): either the image loaded or
the promise rejected (load failure or timeout). -/
inductive PreloadOutcome
  | ok
  | failed
deriving DecidableEq

/-- One completed `loadAlbumCover` call of `useLazyAlbumCovers` (lines
117-146), without an abort signal.  `svc` is the value returned by
`itunesApiService.searchTrack`, which never throws (`none` covers both
"no match" and every caught lookup error).  A falsy service result is
replaced by `getFallbackArtwork`; a non-`data:` URL is then preloaded
and a preload rejection is caught, recording the fallback and marking
the key failed.  The transient membership of the key in `loadingCovers`
during the call cancels out and is omitted. -/
def loadAlbumCover (st : LazyState) (song : Song) (svc : Option String)
    (pre : PreloadOutcome) : LazyState :=
  let key := songKey song
  if (lookupCover st.loadedCovers key).isSome || st.loadingCovers.contains key ||
      st.failedCovers.contains key then st
  else
    let albumCover := match svc with
      | some c => if c = "" then getFallbackArtwork song.artist song.title else c
      | none => getFallbackArtwork song.artist song.title
    if jsStartsWith albumCover "data:" = false ∧ pre = PreloadOutcome.failed then
      { loadedCovers := mapSet st.loadedCovers key (getFallbackArtwork song.artist song.title),
        loadingCovers := st.loadingCovers,
        failedCovers := st.failedCovers ++ [key] }
    else
      { loadedCovers := mapSet st.loadedCovers key albumCover,
        loadingCovers := st.loadingCovers,
        failedCovers := st.failedCovers }

/-! ## `AudioDbService` (`src/unnamed/part_003`) -/

/-- `AudioDbService.getPlaceholderImage`: a fixed music-themed SVG
placeholder, already base64-encoded in the source. -/
def getPlaceholderImage : String :=
  "data:image/svg+xml;base64,PHN2ZyB3aWR0aD0iMjAwIiBoZWlnaHQ9IjIwMCIgdmlld0JveD0iMCAwIDIwMCAyMDAiIGZpbGw9Im5vbmUiIHhtbG5zPSJodHRwOi8vd3d3LnczLm9yZy8yMDAwL3N2ZyI+CjxyZWN0IHdpZHRoPSIyMDAiIGhlaWdodD0iMjAwIiBmaWxsPSJsaW5lYXItZ3JhZGllbnQoMTM1ZGVnLCAjMjEyMTIxIDAlLCAjMTExMTExIDEwMCUpIi8+CjxjaXJjbGUgY3g9IjEwMCIgY3k9IjEwMCIgcj0iNDAiIGZpbGw9Im5vbmUiIHN0cm9rZT0iIzU1NTU1NSIgc3Ryb2tlLXdpZHRoPSIyIi8+CjxjaXJjbGUgY3g9IjEwMCIgY3k9IjEwMCIgcj0iMTIiIGZpbGw9IiM3Nzc3NzciLz4KPHN2ZyB4PSI4MCIgeT0iNzAiIHdpZHRoPSIyNCIgaGVpZ2h0PSIyNCIgdmlld0JveD0iMCAwIDI0IDI0IiBmaWxsPSIjOTk5OTk5Ij4KPHA+PHBhdGggZD0iTTEyIDNWMTMuNTVBNCA0IDAgMSAwIDE0IDEwVjQuNzVMOSA2VjEwLjU1QTQgNCAwIDEgMCAxMSA4VjNaMTIgM1oiLz48L3A+PC9zdmc+Cjx0ZXh0IHg9IjEwMCIgeT0iMTcwIiB0ZXh0LWFuY2hvcj0ibWlkZGxlIiBmaWxsPSIjNzc3Nzc3IiBmb250LXNpemU9IjEyIiBmb250LWZhbWlseT0iQXJpYWwiPk5vIENvdmVyPC90ZXh0Pgo8L3N2Zz4K"

/-- `AudioDbService.simplifyArtistName`: first space-separated word,
stripped of non-word characters, lower-cased. -/
def simplifyArtistName (artistName : String) : String :=
  jsToLower (String.mk (((artistName.splitOn " ").headD "").data.filter isWordChar))

/-- `AudioDbService.fetchAlbumCoverFromiTunes`: the four lookup
strategies in order, each parameter the result of the corresponding
`searchiTunes` call (which catches its own errors and yields `null`);
strategy 4 runs only when the simplified artist name differs from the
original; if everything fails the fixed placeholder is returned.  The
surrounding `try/catch` can only deliver the placeholder as well, so the
function is total and never rejects. -/
def fetchAlbumCoverFromiTunes (o1 o2 o3 o4 : Option String) (artistName : String) : String :=
  match o1 with
  | some c => c
  | none =>
    match o2 with
    | some c => c
    | none =>
      match o3 with
      | some c => c
      | none =>
        if simplifyArtistName artistName ≠ artistName then
          match o4 with
          | some c => c
          | none => getPlaceholderImage
        else getPlaceholderImage

/-- Outcome of the request promise awaited by
`AudioDbService.loadAlbumCoverProgressive`. -/
inductive ReqOutcome
  | val (s : String)
  | thrown
deriving DecidableEq

/-- `AudioDbService.loadAlbumCoverProgressive` for one key, seen
sequentially: the pair is (cache slot for the key after the call, value
delivered to `onCoverLoaded`).  A cache hit is delivered synchronously;
a settled request is cached and delivered; a rejection is caught, and
the placeholder is cached and delivered instead. -/
def loadAlbumCoverProgressive (cache : Option String) (req : ReqOutcome) :
    Option String × String :=
  match cache with
  | some v => (some v, v)
  | none =>
    match req with
    | .val r => (some r, r)
    | .thrown => (some getPlaceholderImage, getPlaceholderImage)

/-! ## `AlbumCoverUpdater` (`src/unnamed/part_003`) -/

/-- Outcome of `itunesApiService.searchTrack` for one album inside the
update loop: a found artwork URL, a `null` return, or a thrown error
(caught by the loop). -/
inductive LookupOutcome
  | found (url : String)
  | noCover
  | errored
deriving DecidableEq

/-- The cover assigned to one album by `updateAllCovers` /
`updateSpecificCovers`: `albumCover || getFallbackArtwork(...)` in the
success path (so a falsy found URL also falls back), and
`getFallbackArtwork(...)` in the catch path. -/
def coverFor (album : AlbumData) (o : LookupOutcome) : String :=
  match o with
  | .found url => if url = "" then getFallbackArtwork album.artist album.title else url
  | .noCover => getFallbackArtwork album.artist album.title
  | .errored => getFallbackArtwork album.artist album.title

/-- The update loop of `updateSpecificCovers` (and `updateAllCovers`,
which is the same loop over `ALBUMS_DATABASE`): each album, in order,
becomes `{ ...album, albumCover: ... }`.  `outcomes i` is the lookup
outcome for the album at position `i`. -/
def updateCoversFrom (outcomes : Nat → LookupOutcome) : Nat → List AlbumData → List AlbumData
  | _, [] => []
  | i, album :: rest =>
    { album with albumCover := coverFor album (outcomes i) } ::
      updateCoversFrom outcomes (i + 1) rest

/-- `AlbumCoverUpdater.updateSpecificCovers`, starting at position 0. -/
def updateSpecificCovers (albums : List AlbumData) (outcomes : Nat → LookupOutcome) :
    List AlbumData :=
  updateCoversFrom outcomes 0 albums

/-- Inductive invariant of the `getAlbumCover` machine for one key:
the cache can only ever hold the lookup's value, every settled caller
got that value, the call counter equals one exactly when a request is
pending or the cache is filled, an `owner` phase can only exist while
that is the case, and before the first call every caller is still in its
synchronous prefix. -/
structure ADInv (ext : String) (s : ADState) : Prop where
  cacheVal : ∀ (v : String), s.cache = some v → v = ext
  settledVal : ∀ (i : Nat) (v : String), s.phases[i]? = some (ADPhase.settled v) → v = ext
  callsEq : s.calls = cond (s.pending || s.cache.isSome) 1 0
  ownerLive : ∀ (i : Nat), s.phases[i]? = some ADPhase.owner → (s.pending || s.cache.isSome) = true
  zeroReady : s.calls = 0 → ∀ (i : Nat) (ph : ADPhase), s.phases[i]? = some ph → ph = ADPhase.ready


/-- Lookup after `List.set` at the written index, given the index is in
range. -/
theorem lookup_set_self {α : Type} {P : List α} {i : Nat} {ph x : α}
    (h : P[i]? = some ph) : (P.set i x)[i]? = some x := by
  have hlt : i < P.length := by
    by_contra hge
    rw [List.getElem?_eq_none (Nat.le_of_not_lt hge)] at h
    exact Option.noConfusion h
  rw [List.getElem?_set, if_pos rfl, if_pos hlt]

/-- Lookup after `List.set` at a different index. -/
theorem lookup_set_other {α : Type} {P : List α} {i j : Nat} {x : α}
    (hij : i ≠ j) : (P.set i x)[j]? = P[j]? := by
  rw [List.getElem?_set, if_neg hij]

theorem adInv_init (ext : String) (n : Nat) : ADInv ext (adInit n) := by
  refine ⟨fun v hv => by simp [adInit] at hv, ?_, by simp [adInit], ?_, ?_⟩
  · intro i v hv
    simp only [adInit, List.getElem?_replicate] at hv
    split at hv <;> simp_all
  · intro i hv
    simp only [adInit, List.getElem?_replicate] at hv
    split at hv <;> simp_all
  · intro _ i ph hv
    simp only [adInit, List.getElem?_replicate] at hv
    split at hv <;> simp_all

theorem adStep_phases_length (ext : String) (s : ADState) (i : Nat) :
    (adStep ext s i).phases.length = s.phases.length := by
  unfold adStep
  rcases hph : s.phases[i]? with _ | ph
  · rfl
  · cases ph with
    | ready =>
      rcases hc : s.cache with _ | v
      · by_cases hp : s.pending <;> simp [hp]
      · simp
    | owner => simp
    | joiner =>
      rcases hc : s.cache with _ | v <;> simp
    | settled r => rfl

theorem adInv_step (ext : String) (s : ADState) (i : Nat) (h : ADInv ext s) :
    ADInv ext (adStep ext s i) := by
  obtain ⟨hcache, hsettled, hcalls, howner, hzero⟩ := h
  rcases hph : s.phases[i]? with _ | ph
  · have hstep : adStep ext s i = s := by simp [adStep, hph]
    rw [hstep]
    exact ⟨hcache, hsettled, hcalls, howner, hzero⟩
  cases ph with
  | ready =>
    rcases hc : s.cache with _ | v
    · by_cases hp : s.pending
      · -- joins the pending request
        have hstep : adStep ext s i = { s with phases := s.phases.set i ADPhase.joiner } := by
          simp [adStep, hph, hc, hp]
        rw [hstep]
        refine ⟨hcache, ?_, hcalls, ?_, ?_⟩
        · intro j v hj
          rcases eq_or_ne i j with rfl | hij
          · rw [lookup_set_self hph] at hj
            exact absurd hj (by simp)
          · rw [lookup_set_other hij] at hj
            exact hsettled j v hj
        · intro j hj
          rcases eq_or_ne i j with rfl | hij
          · rw [lookup_set_self hph] at hj
            exact absurd hj (by simp)
          · rw [lookup_set_other hij] at hj
            exact howner j hj
        · intro h0
          rw [hcalls, hp] at h0
          simp at h0
      · -- becomes the owner and issues the single external call
        have hp' : s.pending = false := by simpa using hp
        have hstep : adStep ext s i =
            { s with pending := true, calls := s.calls + 1,
                     phases := s.phases.set i ADPhase.owner } := by
          simp [adStep, hph, hc, hp']
        rw [hstep]
        refine ⟨hcache, ?_, ?_, ?_, ?_⟩
        · intro j v hj
          rcases eq_or_ne i j with rfl | hij
          · rw [lookup_set_self hph] at hj
            exact absurd hj (by simp)
          · rw [lookup_set_other hij] at hj
            exact hsettled j v hj
        · have : s.calls = 0 := by rw [hcalls, hp', hc]; rfl
          simp [this]
        · intro j _
          simp
        · intro h0
          exact absurd h0 (by simp)
    · -- cache hit: settle immediately with the cached value
      have hstep : adStep ext s i =
          { s with phases := s.phases.set i (ADPhase.settled v) } := by
        simp [adStep, hph, hc]
      rw [hstep]
      refine ⟨hcache, ?_, hcalls, ?_, ?_⟩
      · intro j w hj
        rcases eq_or_ne i j with rfl | hij
        · rw [lookup_set_self hph] at hj
          have : v = w := by simpa using hj
          exact this ▸ hcache v hc
        · rw [lookup_set_other hij] at hj
          exact hsettled j w hj
      · intro j hj
        rcases eq_or_ne i j with rfl | hij
        · rw [lookup_set_self hph] at hj
          exact absurd hj (by simp)
        · rw [lookup_set_other hij] at hj
          exact howner j hj
      · intro h0
        rw [hcalls, hc] at h0
        simp at h0
  | owner =>
    -- the lookup settles: write the cache, clear the queue entry
    have hstep : adStep ext s i =
        { s with cache := some ext, pending := false,
                 phases := s.phases.set i (ADPhase.settled ext) } := by
      simp [adStep, hph]
    rw [hstep]
    have hlive : (s.pending || s.cache.isSome) = true := howner i hph
    have hone : s.calls = 1 := by rw [hcalls, hlive]; rfl
    refine ⟨?_, ?_, ?_, ?_, ?_⟩
    · intro v hv
      have : ext = v := by simpa using hv
      exact this.symm
    · intro j v hj
      rcases eq_or_ne i j with rfl | hij
      · rw [lookup_set_self hph] at hj
        have : ext = v := by simpa using hj
        exact this.symm
      · rw [lookup_set_other hij] at hj
        exact hsettled j v hj
    · simp [hone]
    · intro j _
      simp
    · intro h0
      exact absurd (hone ▸ h0) (by simp)
  | joiner =>
    rcases hc : s.cache with _ | v
    · have hstep : adStep ext s i = s := by simp [adStep, hph, hc]
      rw [hstep]
      exact ⟨hcache, hsettled, hcalls, howner, hzero⟩
    · have hstep : adStep ext s i =
          { s with phases := s.phases.set i (ADPhase.settled v) } := by
        simp [adStep, hph, hc]
      rw [hstep]
      refine ⟨hcache, ?_, hcalls, ?_, ?_⟩
      · intro j w hj
        rcases eq_or_ne i j with rfl | hij
        · rw [lookup_set_self hph] at hj
          have : v = w := by simpa using hj
          exact this ▸ hcache v hc
        · rw [lookup_set_other hij] at hj
          exact hsettled j w hj
      · intro j hj
        rcases eq_or_ne i j with rfl | hij
        · rw [lookup_set_self hph] at hj
          exact absurd hj (by simp)
        · rw [lookup_set_other hij] at hj
          exact howner j hj
      · intro h0
        rw [hcalls, hc] at h0
        simp at h0
  | settled r =>
    have hstep : adStep ext s i = s := by simp [adStep, hph]
    rw [hstep]
    exact ⟨hcache, hsettled, hcalls, howner, hzero⟩

theorem adInv_run (ext : String) (s : ADState) (sched : List Nat) (h : ADInv ext s) :
    ADInv ext (adRun ext s sched) := by
  induction sched generalizing s with
  | nil => exact h
  | cons j rest ih => exact ih (adStep ext s j) (adInv_step ext s j h)

theorem adStep_calls_one (ext : String) (s : ADState) (i : Nat)
    (h : ADInv ext s) (h1 : s.calls = 1) : (adStep ext s i).calls = 1 := by
  rcases hph : s.phases[i]? with _ | ph
  · simpa [adStep, hph] using h1
  cases ph with
  | ready =>
    rcases hc : s.cache with _ | v
    · by_cases hp : s.pending
      · simpa [adStep, hph, hc, hp] using h1
      · have hp' : s.pending = false := by simpa using hp
        have : s.calls = 0 := by rw [h.callsEq, hp', hc]; rfl
        rw [this] at h1
        exact absurd h1 (by simp)
    · simpa [adStep, hph, hc] using h1
  | owner => simpa [adStep, hph] using h1
  | joiner =>
    rcases hc : s.cache with _ | v <;> simpa [adStep, hph, hc] using h1
  | settled r => simpa [adStep, hph] using h1

theorem adRun_calls_one (ext : String) (s : ADState) (sched : List Nat)
    (h : ADInv ext s) (h1 : s.calls = 1) : (adRun ext s sched).calls = 1 := by
  induction sched generalizing s with
  | nil => exact h1
  | cons j rest ih =>
    exact ih (adStep ext s j) (adInv_step ext s j h) (adStep_calls_one ext s j h h1)

theorem adStep_valid_calls_one (ext : String) (s : ADState) (i : Nat)
    (h : ADInv ext s) (hin : i < s.phases.length) : (adStep ext s i).calls = 1 := by
  rcases hph : s.phases[i]? with _ | ph
  · rw [List.getElem?_eq_none_iff] at hph
    omega
  cases ph with
  | ready =>
    rcases hc : s.cache with _ | v
    · by_cases hp : s.pending
      · have h1 : s.calls = 1 := by rw [h.callsEq, hp]; rfl
        simpa [adStep, hph, hc, hp] using h1
      · have hp' : s.pending = false := by simpa using hp
        have h0 : s.calls = 0 := by rw [h.callsEq, hp', hc]; rfl
        simp [adStep, hph, hc, hp', h0]
    · have h1 : s.calls = 1 := by rw [h.callsEq, hc]; simp
      simpa [adStep, hph, hc] using h1
  | owner =>
    have h1 : s.calls = 1 := by rw [h.callsEq, h.ownerLive i hph]; rfl
    simpa [adStep, hph] using h1
  | joiner =>
    have hne : ADPhase.joiner ≠ ADPhase.ready := by simp
    have h1 : s.calls ≠ 0 := fun h0 => hne (h.zeroReady h0 i _ hph)
    have h1' : s.calls = 1 := by
      rw [h.callsEq] at h1 ⊢
      cases hb : (s.pending || s.cache.isSome) <;> simp [hb] at h1 ⊢
    rcases hc : s.cache with _ | v <;> simpa [adStep, hph, hc] using h1'
  | settled r =>
    have hne : ADPhase.settled r ≠ ADPhase.ready := by simp
    have h1 : s.calls ≠ 0 := fun h0 => hne (h.zeroReady h0 i _ hph)
    have h1' : s.calls = 1 := by
      rw [h.callsEq] at h1 ⊢
      cases hb : (s.pending || s.cache.isSome) <;> simp [hb] at h1 ⊢
    simpa [adStep, hph] using h1'

theorem adRun_phases_length (ext : String) (s : ADState) (sched : List Nat) :
    (adRun ext s sched).phases.length = s.phases.length := by
  induction sched generalizing s with
  | nil => rfl
  | cons j rest ih =>
    calc (adRun ext (adStep ext s j) rest).phases.length
        = (adStep ext s j).phases.length := ih (adStep ext s j)
      _ = s.phases.length := adStep_phases_length ext s j

theorem adRun_mem_calls_one (ext : String) (s : ADState) (sched : List Nat) (i : Nat)
    (h : ADInv ext s) (hmem : i ∈ sched) (hin : i < s.phases.length) :
    (adRun ext s sched).calls = 1 := by
  induction sched generalizing s with
  | nil => exact absurd hmem (List.not_mem_nil i)
  | cons j rest ih =>
    rcases List.mem_cons.mp hmem with rfl | hmem'
    · exact adRun_calls_one ext (adStep ext s i) rest (adInv_step ext s i h)
        (adStep_valid_calls_one ext s i h hin)
    · exact ih (adStep ext s j) (adInv_step ext s j h) hmem'
        (by rw [adStep_phases_length]; exact hin)

/-! ## Claim C1: at most one outstanding external lookup per key -/

/-- Claim C1 (counterexample).  The claim states that for every key,
N callers invoking resolve concurrently before the first in-flight
lookup settles cause exactly one external search call; one of the named
resolve implementations is `iTunesAPIService.searchTrack`, which keeps
no table of in-flight requests.  Two concurrent callers of `searchTrack`
for the same key, each running its synchronous prefix before either
fetch settles (schedule `[0, 1]`), issue two external calls, not one. -/
theorem c1_searchTrack_two_external_calls :
    (stRun (some "https://x/600x600bb.jpg") (stInit 2) [0, 1]).calls = 2 ∧ (2 : Nat) ≠ 1 := by
  decide

/-- Claim C1 (amended): for `AudioDbService.getAlbumCover`, which checks
the `requestQueue` before starting work, the invariant holds: under
every interleaving of any number of concurrent callers for one key, at
most one external lookup is ever started; it is exactly one as soon as
any caller has run at all; and every caller that settles receives the
identical result (the value `ext` of the single lookup).
`iTunesAPIService.searchTrack` does not have this property (see the
counterexample): there, each caller whose synchronous prefix runs before
the first settlement issues its own external call. -/
theorem c1_audioDb_single_flight (n : Nat) (ext : String) (sched : List Nat) :
    (adRun ext (adInit n) sched).calls ≤ 1 ∧
    (∀ (j : Nat) (v : String),
      (adRun ext (adInit n) sched).phases[j]? = some (ADPhase.settled v) → v = ext) ∧
    (∀ i : Nat, i ∈ sched → i < n → (adRun ext (adInit n) sched).calls = 1) := by
  have hinv := adInv_run ext (adInit n) sched (adInv_init ext n)
  refine ⟨?_, hinv.settledVal, ?_⟩
  · rw [hinv.callsEq]
    cases ((adRun ext (adInit n) sched).pending ||
        (adRun ext (adInit n) sched).cache.isSome) <;> simp
  · intro i hmem hin
    exact adRun_mem_calls_one ext (adInit n) sched i (adInv_init ext n) hmem
      (by simpa [adInit] using hin)

/-- Claim C1 witness: two callers, schedule `[0, 1, 0, 1]`, one external
call. -/
theorem c1_audioDb_single_flight_witness :
    (adRun "cover" (adInit 2) [0, 1, 0, 1]).calls = 1 :=
  (c1_audioDb_single_flight 2 "cover" [0, 1, 0, 1]).2.2 0 (by decide) (by decide)

/-! ## Claim C2: cache idempotence across the process lifetime -/

/-- Claim C2 (counterexample).  The claim states that once a resolution
for a key has settled — "for failed/FALLBACK outcomes as well" — every
subsequent resolve returns the cached result with no new external call.
In `iTunesAPIService.searchTrack`, a failed lookup caches nothing: after
a first call for the key settles by failure, a second call for the same
key issues a new external call (count 1, not 0). -/
theorem c2_failed_outcome_not_cached :
    searchTrack none FetchOutcome.err "Taylor Swift" "Anti-Hero" = (none, none, 1) ∧
    (searchTrack (searchTrack none FetchOutcome.err "Taylor Swift" "Anti-Hero").2.1
        FetchOutcome.err "Taylor Swift" "Anti-Hero").2.2 = 1 ∧ (1 : Nat) ≠ 0 :=
  ⟨rfl, rfl, by decide⟩

/-- Claim C2 (amended): a cache hit in `searchTrack` returns the cached
value synchronously with no external call; every successful settlement
writes the cache, so a second call after a successful first call is such
a hit.  Failed settlements are not cached by the service; at the hook
level (`useFastAlbumCovers.loadCover`, the claim's named caller), a key
already in `attemptedLoads` — which every settled call enters, failed or
not — is skipped without invoking the service at all. -/
theorem c2_cache_idempotence (v : String) (o : FetchOutcome) (a t : String) :
    searchTrack (some v) o a t = (some v, some v, 0) ∧
    (∀ (o1 o2 : FetchOutcome) (u : String),
      (searchTrack none o1 a t).1 = some u →
      searchTrack (searchTrack none o1 a t).2.1 o2 a t = (some u, some u, 0)) ∧
    (∀ (st : FastState) (song : Song) (cover : Option String),
      st.attemptedLoads.contains (getCacheKey song) = true →
      loadCover st song cover = (st, 0)) := by
  refine ⟨rfl, ?_, ?_⟩
  · intro o1 o2 u h1
    have h2 : (searchTrack none o1 a t).2.1 = some u := by
      cases o1 with
      | err => simp [searchTrack] at h1
      | ok data =>
        simp only [searchTrack] at h1 ⊢
        revert h1
        cases hb : findBestMatch data (cleanSearchTerm a) (cleanSearchTerm t) with
        | none =>
          intro h1
          simp at h1
        | some best =>
          intro h1
          by_cases hart : best.artworkUrl100 = ""
          · simp [hart] at h1
          · simp only [hart, ne_eq, not_false_eq_true, if_true] at h1 ⊢
            simp at h1 ⊢
            exact h1
    rw [h2]
    rfl
  · intro st song cover h
    have h' : getCacheKey song ∈ st.attemptedLoads := by simpa using h
    simp [loadCover, h']

/-- Claim C2 witness: a successful resolution for
`("Taylor Swift", "Anti-Hero")` followed by a second call, which is
answered from the cache with zero external calls. -/
theorem c2_cache_idempotence_witness :
    searchTrack
      (searchTrack none
        (FetchOutcome.ok [⟨1, "Taylor Swift", "Anti-Hero", "Midnights", "", "",
          "https://x/100x100bb.jpg", "", "Pop"⟩]) "Taylor Swift" "Anti-Hero").2.1
      FetchOutcome.err "Taylor Swift" "Anti-Hero" =
      (some "https://x/600x600bb.jpg", some "https://x/600x600bb.jpg", 0) :=
  (c2_cache_idempotence "z" FetchOutcome.err "Taylor Swift" "Anti-Hero").2.1
    (FetchOutcome.ok [⟨1, "Taylor Swift", "Anti-Hero", "Midnights", "", "",
      "https://x/100x100bb.jpg", "", "Pop"⟩]) FetchOutcome.err
    "https://x/600x600bb.jpg" (by decide)

/-! ## Claim C3: total absorption of lookup and preload errors -/

/-- Retrieving the key just written by `mapSet`. -/
theorem lookupCover_mapSet (m : List (String × String)) (k v : String) :
    lookupCover (mapSet m k v) k = some v := by
  induction m with
  | nil => simp [mapSet, lookupCover]
  | cons p rest ih =>
    by_cases hk : p.1 = k
    · simp [mapSet, hk, lookupCover]
    · simp [mapSet, hk, lookupCover, ih]

/-- Every synthesized fallback image is a `data:` URI, so the lazy hook
never tries to network-preload it. -/
theorem fallback_starts_data (artist title : String) :
    jsStartsWith (getFallbackArtwork artist title) "data:" = true := by
  unfold getFallbackArtwork jsStartsWith
  rw [List.isPrefixOf_iff_prefix, String.data_append]
  have h1 : "data:".data <+: "data:image/svg+xml;base64,".data := by
    refine List.isPrefixOf_iff_prefix.mp ?_
    decide
  exact h1.trans (List.prefix_append _ _)

/-- Claim C3: no error from the external lookup or the image preload
ever escapes to a caller.  For `useLazyAlbumCovers.loadAlbumCover`
(modelled as a total function — every failure is an explicit outcome
constructor, mirroring the `try/catch` that absorbs every rejection),
any fresh key ends the call with a cover recorded in `loadedCovers`:
the fallback synthesis exactly when the external search failed
(`svc = none` covers network failure, malformed response, timeout and
no-match, all absorbed inside `searchTrack`); on a successful search
either the found URL, or — when the image preload fails — the fallback,
with the key additionally recorded in `failedCovers`.
`AudioDbService.loadAlbumCoverProgressive` likewise always delivers a
usable artwork string to its callback and caches it, delivering the
placeholder when the request rejects; and when all four lookup
strategies of `fetchAlbumCoverFromiTunes` fail the result is the
placeholder, never an exception. -/
theorem c3_errors_fully_absorbed (st : LazyState) (song : Song) (svc : Option String)
    (pre : PreloadOutcome)
    (hfresh : lookupCover st.loadedCovers (songKey song) = none ∧
      st.loadingCovers.contains (songKey song) = false ∧
      st.failedCovers.contains (songKey song) = false) :
    (∃ v, lookupCover (loadAlbumCover st song svc pre).loadedCovers (songKey song) = some v ∧
      (svc = none → v = getFallbackArtwork song.artist song.title) ∧
      (∀ u, svc = some u → u ≠ "" →
        v = u ∨ (v = getFallbackArtwork song.artist song.title ∧
          (loadAlbumCover st song svc pre).failedCovers.contains (songKey song) = true))) ∧
    (∀ req, (loadAlbumCoverProgressive none req).1 =
        some (loadAlbumCoverProgressive none req).2 ∧
      (req = ReqOutcome.thrown →
        (loadAlbumCoverProgressive none req).2 = getPlaceholderImage)) ∧
    fetchAlbumCoverFromiTunes none none none none song.artist = getPlaceholderImage := by
  obtain ⟨hf1, hf2, hf3⟩ := hfresh
  refine ⟨?_, ?_, ?_⟩
  · have hm1 : (lookupCover st.loadedCovers (songKey song)).isSome = false := by
      simp [hf1]
    have hm2 : songKey song ∉ st.loadingCovers := by simpa using hf2
    have hm3 : songKey song ∉ st.failedCovers := by simpa using hf3
    cases svc with
    | none =>
      have hdata : jsStartsWith (getFallbackArtwork song.artist song.title) "data:" = true :=
        fallback_starts_data song.artist song.title
      have hstep : loadAlbumCover st song none pre =
          { loadedCovers := mapSet st.loadedCovers (songKey song)
              (getFallbackArtwork song.artist song.title),
            loadingCovers := st.loadingCovers,
            failedCovers := st.failedCovers } := by
        simp [loadAlbumCover, hm1, hm2, hm3, hdata]
      refine ⟨getFallbackArtwork song.artist song.title, ?_, fun _ => rfl, ?_⟩
      · rw [hstep]
        exact lookupCover_mapSet _ _ _
      · intro u hu
        exact absurd hu (by simp)
    | some u =>
      by_cases hu0 : u = ""
      · subst hu0
        have hdata := fallback_starts_data song.artist song.title
        have hstep : loadAlbumCover st song (some "") pre =
            { loadedCovers := mapSet st.loadedCovers (songKey song)
                (getFallbackArtwork song.artist song.title),
              loadingCovers := st.loadingCovers,
              failedCovers := st.failedCovers } := by
          simp [loadAlbumCover, hm1, hm2, hm3, hdata]
        refine ⟨getFallbackArtwork song.artist song.title, ?_,
          fun h => Option.noConfusion h, ?_⟩
        · rw [hstep]
          exact lookupCover_mapSet _ _ _
        · intro u' hu' hne
          exact absurd (by simpa using hu'.symm) hne
      · by_cases hd : jsStartsWith u "data:" = true
        · have hstep : loadAlbumCover st song (some u) pre =
              { loadedCovers := mapSet st.loadedCovers (songKey song) u,
                loadingCovers := st.loadingCovers,
                failedCovers := st.failedCovers } := by
            simp [loadAlbumCover, hm1, hm2, hm3, hu0, hd]
          refine ⟨u, ?_, fun h => Option.noConfusion h, ?_⟩
          · rw [hstep]
            exact lookupCover_mapSet _ _ _
          · intro u' hu' _
            left
            simpa using hu' 
        · cases pre with
          | ok =>
            have hstep : loadAlbumCover st song (some u) PreloadOutcome.ok =
                { loadedCovers := mapSet st.loadedCovers (songKey song) u,
                  loadingCovers := st.loadingCovers,
                  failedCovers := st.failedCovers } := by
              simp [loadAlbumCover, hm1, hm2, hm3, hu0]
            refine ⟨u, ?_, fun h => Option.noConfusion h, ?_⟩
            · rw [hstep]
              exact lookupCover_mapSet _ _ _
            · intro u' hu' _
              left
              simpa using hu' 
          | failed =>
            have hd' : jsStartsWith u "data:" = false := by simpa using hd
            have hstep : loadAlbumCover st song (some u) PreloadOutcome.failed =
                { loadedCovers := mapSet st.loadedCovers (songKey song)
                    (getFallbackArtwork song.artist song.title),
                  loadingCovers := st.loadingCovers,
                  failedCovers := st.failedCovers ++ [songKey song] } := by
              simp [loadAlbumCover, hm1, hm2, hm3, hu0, hd']
            refine ⟨getFallbackArtwork song.artist song.title, ?_,
              fun h => Option.noConfusion h, ?_⟩
            · rw [hstep]
              exact lookupCover_mapSet _ _ _
            · intro u' hu' _
              right
              refine ⟨rfl, ?_⟩
              rw [hstep]
              simp
  · intro req
    cases req with
    | val s2 => exact ⟨rfl, fun h => by cases h⟩
    | thrown => exact ⟨rfl, fun _ => rfl⟩
  · show (if simplifyArtistName song.artist ≠ song.artist then getPlaceholderImage
      else getPlaceholderImage) = getPlaceholderImage
    exact ite_self _

/-- Claim C3 witness: a fresh key, empty state, failed external search:
the fallback image for the key is recorded and returned. -/
theorem c3_errors_fully_absorbed_witness :
    ∃ v, lookupCover (loadAlbumCover ⟨[], [], []⟩
        ⟨"1", "Anti-Hero", "Taylor Swift", "", "y", none, none⟩ none
        PreloadOutcome.ok).loadedCovers
      (songKey ⟨"1", "Anti-Hero", "Taylor Swift", "", "y", none, none⟩) = some v ∧
      ((none : Option String) = none →
        v = getFallbackArtwork "Taylor Swift" "Anti-Hero") ∧
      (∀ u, (none : Option String) = some u → u ≠ "" →
        v = u ∨ (v = getFallbackArtwork "Taylor Swift" "Anti-Hero" ∧
          (loadAlbumCover ⟨[], [], []⟩
            ⟨"1", "Anti-Hero", "Taylor Swift", "", "y", none, none⟩ none
            PreloadOutcome.ok).failedCovers.contains
            (songKey ⟨"1", "Anti-Hero", "Taylor Swift", "", "y", none, none⟩) = true)) :=
  (c3_errors_fully_absorbed ⟨[], [], []⟩
    ⟨"1", "Anti-Hero", "Taylor Swift", "", "y", none, none⟩
    none PreloadOutcome.ok ⟨rfl, rfl, rfl⟩).1

/-! ## Claim C4: substring and exact-match bonuses stack -/

/-- Claim C4 (counterexample).  The claim states the substring bonus
applies only when the exact bonus did not, so an exact artist match
contributes exactly 20 and an exact track match exactly 15.  In
`findBestMatch`, equality implies substring containment and both
additions fire: an exactly matching artist contributes 30 and an exactly
matching track 23. -/
theorem c4_exact_match_stacks :
    artistCriteria "taylor swift" "taylor swift" = 30 ∧
    artistCriteria "taylor swift" "taylor swift" ≠ 20 ∧
    trackCriteria "antihero" "antihero" = 23 ∧
    trackCriteria "antihero" "antihero" ≠ 15 ∧
    scoreResult ⟨1, "Taylor Swift", "Anti-Hero", "Midnights", "", "",
      "https://x/100x100bb.jpg", "", "Pop"⟩ "taylor swift" "antihero" = 58 := by
  decide

/-- A string always contains itself as a substring (JavaScript
`s.includes(s)` is true). -/
theorem jsIncludes_self (s : String) : jsIncludes s s = true := by
  unfold jsIncludes
  cases h : s.data with
  | nil => simp [listHasInfix]
  | cons c rest =>
    show (List.isPrefixOf (c :: rest) (c :: rest) || listHasInfix (c :: rest) rest) = true
    rw [List.isPrefixOf_iff_prefix.mpr List.prefix_rfl]
    rfl

/-- Claim C4 (amended): because equal normalized strings satisfy the
substring test, every candidate whose normalized artist equals the
requested artist receives both artist additions — its artist criteria
contribute exactly 30 points — and every candidate whose normalized
track equals the requested track receives both track additions — 23
points. -/
theorem c4_exact_artist_30_track_23 (resultArtist artist resultTrack track : String)
    (ha : resultArtist = artist) (ht : resultTrack = track) :
    artistCriteria resultArtist artist = 30 ∧ trackCriteria resultTrack track = 23 := by
  subst ha
  subst ht
  constructor
  · unfold artistCriteria
    rw [jsIncludes_self]
    simp
  · unfold trackCriteria
    rw [jsIncludes_self]
    simp

/-- Claim C4 witness. -/
theorem c4_exact_artist_30_track_23_witness :
    artistCriteria "dua lipa" "dua lipa" = 30 ∧ trackCriteria "levitating" "levitating" = 23 :=
  c4_exact_artist_30_track_23 "dua lipa" "dua lipa" "levitating" "levitating" rfl rfl

/-! ## Claim C5: minimum score floor -/

/-- Membership is preserved by the stable descending insertion. -/
theorem mem_insertDesc {p q : ITunesTrack × Nat} {l : List (ITunesTrack × Nat)} :
    q ∈ insertDesc p l ↔ q = p ∨ q ∈ l := by
  induction l with
  | nil => simp [insertDesc]
  | cons r rest ih =>
    unfold insertDesc
    by_cases h : r.2 < p.2
    · simp [h]
    · simp [h, ih]
      tauto

/-- Membership is preserved by the descending sort. -/
theorem mem_sortByScoreDesc {q : ITunesTrack × Nat} {l : List (ITunesTrack × Nat)} :
    q ∈ sortByScoreDesc l ↔ q ∈ l := by
  induction l with
  | nil => simp [sortByScoreDesc]
  | cons r rest ih =>
    show q ∈ insertDesc r (sortByScoreDesc rest) ↔ _
    rw [mem_insertDesc, ih]
    simp

/-- When neither direction of the substring test holds, the artist
criteria contribute nothing (the exact test cannot hold either, since
equality would make the substring test true). -/
theorem artistCriteria_eq_zero {resultArtist artist : String}
    (h1 : jsIncludes resultArtist artist = false)
    (h2 : jsIncludes artist resultArtist = false) :
    artistCriteria resultArtist artist = 0 := by
  have hne : resultArtist ≠ artist := by
    intro heq
    rw [heq, jsIncludes_self] at h1
    exact Bool.noConfusion h1
  unfold artistCriteria
  rw [h1, h2, if_neg hne]
  rfl

/-- Track analogue of `artistCriteria_eq_zero`. -/
theorem trackCriteria_eq_zero {resultTrack track : String}
    (h1 : jsIncludes resultTrack track = false)
    (h2 : jsIncludes track resultTrack = false) :
    trackCriteria resultTrack track = 0 := by
  have hne : resultTrack ≠ track := by
    intro heq
    rw [heq, jsIncludes_self] at h1
    exact Bool.noConfusion h1
  unfold trackCriteria
  rw [h1, h2, if_neg hne]
  rfl

/-- The artwork bonus is at most 5. -/
theorem artworkBonus_le (r : ITunesTrack) : artworkBonus r ≤ 5 := by
  unfold artworkBonus
  split <;> omega

/-- Claim C5: `findBestMatch` selects a candidate only when its score
strictly exceeds the floor 5; and when no candidate matches the
requested artist or track by substring (hence neither by equality), no
candidate is selected — the artwork-presence bonus alone never
suffices. -/
theorem c5_min_score_floor (results : List ITunesTrack) (artist track : String) :
    (∀ r, findBestMatch results artist track = some r →
      5 < scoreResult r artist track) ∧
    ((∀ r ∈ results,
        jsIncludes (cleanSearchTerm r.artistName) artist = false ∧
        jsIncludes artist (cleanSearchTerm r.artistName) = false ∧
        jsIncludes (cleanSearchTerm r.trackName) track = false ∧
        jsIncludes track (cleanSearchTerm r.trackName) = false) →
      findBestMatch results artist track = none) := by
  constructor
  · intro r h
    unfold findBestMatch at h
    by_cases hlen : results.length = 0
    · rw [if_pos hlen] at h
      exact Option.noConfusion h
    · rw [if_neg hlen] at h
      split at h
      next best hh =>
        split at h
        next hgt =>
          have hmem : best ∈ sortByScoreDesc
              (results.map (fun result => (result, scoreResult result artist track))) :=
            List.mem_of_mem_head? (by rw [hh]; exact rfl)
          rw [mem_sortByScoreDesc] at hmem
          rcases List.mem_map.mp hmem with ⟨r', _, hr'⟩
          have hbest2 : best.2 = scoreResult best.1 artist track := by
            rw [← hr']
          have hr : r = best.1 := by
            injection h with h'
            exact h'.symm
          rw [hr, ← hbest2]
          exact hgt
        next hgt => exact Option.noConfusion h
      next hh => exact Option.noConfusion h
  · intro hall
    unfold findBestMatch
    by_cases hlen : results.length = 0
    · rw [if_pos hlen]
    · rw [if_neg hlen]
      split
      next best hh =>
        have hmem : best ∈ sortByScoreDesc
            (results.map (fun result => (result, scoreResult result artist track))) :=
          List.mem_of_mem_head? (by rw [hh]; exact rfl)
        rw [mem_sortByScoreDesc] at hmem
        rcases List.mem_map.mp hmem with ⟨r', hr'mem, hr'⟩
        obtain ⟨ha1, ha2, ht1, ht2⟩ := hall r' hr'mem
        have hscore : scoreResult r' artist track ≤ 5 := by
          unfold scoreResult
          rw [artistCriteria_eq_zero ha1 ha2, trackCriteria_eq_zero ht1 ht2]
          have := artworkBonus_le r'
          omega
        have hbest2 : best.2 ≤ 5 := by
          rw [← hr']
          exact hscore
        rw [if_neg (by omega)]
      next hh => rfl

/-- Claim C5 witness: the empty candidate list selects nothing. -/
theorem c5_min_score_floor_witness :
    findBestMatch [] "taylor swift" "antihero" = none :=
  (c5_min_score_floor [] "taylor swift" "antihero").2 (by simp)

/-! ## Claim C6: priority plan order -/

/-- The focus item is at distance 0 from itself. -/
theorem distFrom_self (c : Nat) : distFrom c c = 0 := by
  unfold distFrom
  rw [if_pos (Nat.le_refl c)]
  omega

/-- Distance of the index before the focus. -/
theorem distFrom_sub {c r : Nat} (hr : r ≤ c) : distFrom c (c - r) = r := by
  unfold distFrom
  rw [if_pos (Nat.sub_le c r)]
  omega

/-- Distance of the index after the focus. -/
theorem distFrom_add (c r : Nat) (hr : 1 ≤ r) : distFrom c (c + r) = r := by
  unfold distFrom
  rw [if_neg (by omega)]
  omega

/-- Every index emitted by the `radius` iteration is at exactly that
distance from the focus. -/
theorem mem_ringAt {n c r x : Nat} (hr : 1 ≤ r) (hx : x ∈ ringAt n c r) :
    distFrom c x = r := by
  unfold ringAt at hx
  rcases List.mem_append.mp hx with h | h
  · split at h
    next hcond =>
      have hx' := List.mem_singleton.mp h
      subst hx'
      exact distFrom_sub hcond.1
    next => exact absurd h (List.not_mem_nil x)
  · split at h
    next hcond =>
      have hx' := List.mem_singleton.mp h
      subst hx'
      exact distFrom_add c r hr
    next => exact absurd h (List.not_mem_nil x)

/-- Within one radius iteration the previous index is emitted before
the next index: equal distance, smaller index first. -/
theorem ringAt_pairwise (n c r : Nat) (hr : 1 ≤ r) :
    (ringAt n c r).Pairwise (planRel c) := by
  unfold ringAt
  by_cases h1 : r ≤ c ∧ c - r < n
  · rw [if_pos h1]
    by_cases h2 : c + r < n
    · rw [if_pos h2, List.singleton_append, List.pairwise_cons]
      refine ⟨?_, List.pairwise_singleton _ _⟩
      intro b hb
      have hb' := List.mem_singleton.mp hb
      subst hb'
      right
      exact ⟨by rw [distFrom_sub h1.1, distFrom_add c r hr], by omega⟩
    · rw [if_neg h2]
      simp
  · rw [if_neg h1]
    by_cases h2 : c + r < n
    · rw [if_pos h2]
      simp
    · rw [if_neg h2]
      simp

/-- Rings of strictly increasing radii are emitted strictly
nearest-first. -/
theorem flatMap_ring_pairwise (n c : Nat) (radii : List Nat)
    (hpos : ∀ r ∈ radii, 1 ≤ r) (hsorted : radii.Pairwise (· < ·)) :
    (radii.flatMap (ringAt n c)).Pairwise (planRel c) := by
  induction radii with
  | nil => simp
  | cons r rest ih =>
    rw [List.flatMap_cons, List.pairwise_append]
    rcases List.pairwise_cons.mp hsorted with ⟨hlt, hrest⟩
    refine ⟨ringAt_pairwise n c r (hpos r (by simp)),
      ih (fun r' hr' => hpos r' (by simp [hr'])) hrest, ?_⟩
    intro a ha b hb
    rcases List.mem_flatMap.mp hb with ⟨r', hr'mem, hbr'⟩
    left
    rw [mem_ringAt (hpos r (by simp)) ha,
      mem_ringAt (hpos r' (by simp [hr'mem])) hbr']
    exact hlt r' hr'mem

/-- Claim C6 (counterexample).  The claim states a tie at equal distance
is broken by preferring the item with the larger index.  For ten items
with focus 5 and radius 5, the plan of `useFastAlbumCovers` is
`[5, 4, 6, 3, 7, 2, 8, 1, 9, 0]`: at distance 1 the smaller index 4 is
submitted before the larger index 6. -/
theorem c6_tie_prefers_smaller_index :
    planOrder 10 5 5 = [5, 4, 6, 3, 7, 2, 8, 1, 9, 0] ∧
    List.indexOf 4 (planOrder 10 5 5) < List.indexOf 6 (planOrder 10 5 5) ∧
    distFrom 5 4 = distFrom 5 6 ∧ (4 : Nat) < 6 := by
  decide

/-- Claim C6 (amended): the plan always begins with the item at the
focus index, items are ordered by strictly ascending absolute distance
from the focus — so no item at distance `d` is submitted before an item
at distance `< d` — and a tie between the item before and the item after
the focus at equal distance is broken by preferring the item with the
SMALLER index (the `for` loop pushes `centerIndex - radius` before
`centerIndex + radius`). -/
theorem c6_plan_center_first_nearest_first (n centerIndex preloadRadius : Nat)
    (h : centerIndex < n) :
    (planOrder n centerIndex preloadRadius).head? = some centerIndex ∧
    (planOrder n centerIndex preloadRadius).Pairwise (planRel centerIndex) := by
  constructor
  · unfold planOrder
    rw [if_pos h, List.singleton_append]
    rfl
  · unfold planOrder
    rw [if_pos h, List.singleton_append, List.pairwise_cons]
    constructor
    · intro b hb
      rcases List.mem_flatMap.mp hb with ⟨r, hrmem, hbr⟩
      have hr1 : 1 ≤ r := (List.mem_range'_1.mp hrmem).1
      left
      rw [distFrom_self, mem_ringAt hr1 hbr]
      omega
    · exact flatMap_ring_pairwise n centerIndex _
        (fun r hr => (List.mem_range'_1.mp hr).1)
        (List.pairwise_lt_range' 1 preloadRadius)

/-- Claim C6 witness: ten items, focus 5, radius 5. -/
theorem c6_plan_center_first_nearest_first_witness :
    (planOrder 10 5 5).head? = some 5 ∧ (planOrder 10 5 5).Pairwise (planRel 5) :=
  c6_plan_center_first_nearest_first 10 5 5 (by decide)

/-! ## Claim C7: determinism of fallback synthesis -/

/-- Claim C7: fallback synthesis is pure and deterministic.  Two calls
of `getFallbackArtwork` on equal artist and track strings produce
byte-identical output (the embedding is a function of exactly those two
strings, mirroring the source, which reads no other state and uses no
randomness); and the hash-derived gradient parameters lie in the ranges
the source documents: saturation in [30, 70), lightness in [20, 50),
hue in [0, 360). -/
theorem c7_fallback_deterministic (artist1 title1 artist2 title2 : String)
    (ha : artist1 = artist2) (ht : title1 = title2) :
    getFallbackArtwork artist1 title1 = getFallbackArtwork artist2 title2 ∧
    30 ≤ 30 + simpleHash (artist1 ++ title1) % 40 ∧
    30 + simpleHash (artist1 ++ title1) % 40 < 70 ∧
    20 ≤ 20 + simpleHash (artist1 ++ title1) % 30 ∧
    20 + simpleHash (artist1 ++ title1) % 30 < 50 ∧
    simpleHash (artist1 ++ title1) % 360 < 360 := by
  subst ha
  subst ht
  exact ⟨rfl, by omega, by omega, by omega, by omega, by omega⟩

/-- Claim C7 witness. -/
theorem c7_fallback_deterministic_witness :
    getFallbackArtwork "Taylor Swift" "Anti-Hero" =
      getFallbackArtwork "Taylor Swift" "Anti-Hero" ∧
    30 ≤ 30 + simpleHash ("Taylor Swift" ++ "Anti-Hero") % 40 ∧
    30 + simpleHash ("Taylor Swift" ++ "Anti-Hero") % 40 < 70 ∧
    20 ≤ 20 + simpleHash ("Taylor Swift" ++ "Anti-Hero") % 30 ∧
    20 + simpleHash ("Taylor Swift" ++ "Anti-Hero") % 30 < 50 ∧
    simpleHash ("Taylor Swift" ++ "Anti-Hero") % 360 < 360 :=
  c7_fallback_deterministic "Taylor Swift" "Anti-Hero" "Taylor Swift" "Anti-Hero" rfl rfl

/-! ## Claim C8: artwork URL upgrade -/

/-- Characterization of the first-occurrence replacement: a scan that
never finds the (non-empty) pattern leaves the list unchanged, and a
scan that finds it splices the replacement at the leftmost
occurrence. -/
theorem replaceFirstAux_spec (pat rep : List Char) (hne : pat ≠ []) (l : List Char) :
    (listHasInfix pat l = false → replaceFirstAux pat rep l = l) ∧
    (listHasInfix pat l = true →
      ∃ p s, l = p ++ pat ++ s ∧ replaceFirstAux pat rep l = p ++ rep ++ s) := by
  induction l with
  | nil =>
    constructor
    · intro _
      rfl
    · intro h
      exfalso
      have hemp : pat.isEmpty = true := h
      rw [List.isEmpty_iff] at hemp
      exact hne hemp
  | cons c rest ih =>
    by_cases hpre : pat.isPrefixOf (c :: rest) = true
    · have hstep : replaceFirstAux pat rep (c :: rest) =
          rep ++ (c :: rest).drop pat.length := by
        rw [replaceFirstAux, if_pos hpre]
      have hinf : listHasInfix pat (c :: rest) = true := by
        show (pat.isPrefixOf (c :: rest) || listHasInfix pat rest) = true
        rw [hpre]
        rfl
      constructor
      · intro h
        rw [hinf] at h
        exact Bool.noConfusion h
      · intro _
        rcases List.isPrefixOf_iff_prefix.mp hpre with ⟨s, hs⟩
        refine ⟨[], s, by simpa using hs.symm, ?_⟩
        rw [hstep, ← hs, List.drop_left]
        simp
    · have hpre' : pat.isPrefixOf (c :: rest) = false := by
        simp only [Bool.not_eq_true] at hpre
        exact hpre
      have hstep : replaceFirstAux pat rep (c :: rest) =
          c :: replaceFirstAux pat rep rest := by
        rw [replaceFirstAux, if_neg (by simp [hpre'])]
      have hinf : listHasInfix pat (c :: rest) = listHasInfix pat rest := by
        show (pat.isPrefixOf (c :: rest) || listHasInfix pat rest) = listHasInfix pat rest
        rw [hpre']
        rfl
      constructor
      · intro h
        rw [hinf] at h
        rw [hstep, ih.1 h]
      · intro h
        rw [hinf] at h
        rcases ih.2 h with ⟨p, s, hl, hr⟩
        exact ⟨c :: p, s, by simp [hl], by simp [hstep, hr]⟩

/-- Claim C8 (counterexample).  The claim states that every artwork URL
containing the substring `100x100` is upgraded by substitution.  The
code's literal pattern is `100x100bb`: a URL containing `100x100` but
not `100x100bb` passes through unchanged, with no `600x600` anywhere in
the result. -/
theorem c8_plain_100x100_not_upgraded :
    jsIncludes "https://x/100x100.jpg" "100x100" = true ∧
    upgradeArtwork "https://x/100x100.jpg" = "https://x/100x100.jpg" ∧
    jsIncludes (upgradeArtwork "https://x/100x100.jpg") "600x600" = false := by
  decide

/-- Claim C8 (amended): the upgrade replaces the FIRST occurrence of the
literal substring `100x100bb` by `600x600bb`; a URL not containing
`100x100bb` (even one containing the bare `100x100`) is returned
unchanged. -/
theorem c8_upgrade_first_100x100bb (url : String) :
    (jsIncludes url "100x100bb" = false → upgradeArtwork url = url) ∧
    (jsIncludes url "100x100bb" = true →
      ∃ p s, url.data = p ++ "100x100bb".data ++ s ∧
        (upgradeArtwork url).data = p ++ "600x600bb".data ++ s) := by
  have hspec := replaceFirstAux_spec "100x100bb".data "600x600bb".data (by decide) url.data
  constructor
  · intro h
    have heq := hspec.1 h
    show String.mk (replaceFirstAux "100x100bb".data "600x600bb".data url.data) = url
    rw [heq]
  · intro h
    rcases hspec.2 h with ⟨p, s, hl, hr⟩
    exact ⟨p, s, hl, hr⟩

/-- Claim C8 witness: a URL without the pattern is unchanged. -/
theorem c8_upgrade_first_100x100bb_witness :
    upgradeArtwork "https://x/cover.jpg" = "https://x/cover.jpg" :=
  (c8_upgrade_first_100x100bb "https://x/cover.jpg").1 (by decide)

/-! ## Claim C9: loading progress -/

/-- Elements produced by `markAttempted` come from the set or the new
key. -/
theorem mem_markAttempted {l : List String} {k x : String}
    (h : x ∈ markAttempted l k) : x ∈ l ∨ x = k := by
  unfold markAttempted at h
  split at h
  · exact Or.inl h
  · rcases List.mem_append.mp h with h' | h'
    · exact Or.inl h'
    · exact Or.inr (List.mem_singleton.mp h')

/-- `markAttempted` preserves distinctness. -/
theorem markAttempted_nodup {l : List String} {k : String} (h : l.Nodup) :
    (markAttempted l k).Nodup := by
  unfold markAttempted
  split
  · exact h
  · next hc =>
    have hk : k ∉ l := by simpa using hc
    simp [List.nodup_append, h, hk]

/-- The attempted set never shrinks. -/
theorem length_le_markAttempted (l : List String) (k : String) :
    l.length ≤ (markAttempted l k).length := by
  unfold markAttempted
  split <;> simp

/-- Elements of the final attempted set come from the initial set or
from the trace of settled keys. -/
theorem mem_runAttempts {a t : List String} {x : String}
    (h : x ∈ runAttempts a t) : x ∈ a ∨ x ∈ t := by
  induction t generalizing a with
  | nil => exact Or.inl h
  | cons k rest ih =>
    rcases ih (a := markAttempted a k) h with h' | h'
    · rcases mem_markAttempted h' with h'' | h''
      · exact Or.inl h''
      · exact Or.inr (by simp [h''])
    · exact Or.inr (by simp [h'])

/-- The attempted set stays distinct over any trace. -/
theorem runAttempts_nodup {a : List String} (t : List String) (h : a.Nodup) :
    (runAttempts a t).Nodup := by
  induction t generalizing a with
  | nil => exact h
  | cons k rest ih => exact ih (markAttempted_nodup h)

/-- One more settled key is one `markAttempted` step. -/
theorem runAttempts_append_singleton (a t : List String) (k : String) :
    runAttempts a (t ++ [k]) = markAttempted (runAttempts a t) k := by
  simp [runAttempts, List.foldl_append]

/-- Progress is monotone in the attempted count. -/
theorem loadingProgress_mono {a b total : Nat} (h : a ≤ b) :
    loadingProgress a total ≤ loadingProgress b total := by
  unfold loadingProgress
  split
  · next htot =>
    have h0 : (0 : ℚ) < total := by exact_mod_cast htot
    have hab : (a : ℚ) ≤ b := by exact_mod_cast h
    gcongr
  · exact le_refl 0

/-- Progress is never negative. -/
theorem loadingProgress_nonneg (count total : Nat) :
    0 ≤ loadingProgress count total := by
  unfold loadingProgress
  split
  · positivity
  · exact le_refl 0

/-- Progress never exceeds 100 while the attempted count is bounded by
the item count. -/
theorem loadingProgress_le_100 {count total : Nat} (h : count ≤ total) :
    loadingProgress count total ≤ 100 := by
  unfold loadingProgress
  split
  · next htot =>
    have h0 : (0 : ℚ) < total := by exact_mod_cast htot
    have h1 : (count : ℚ) / total ≤ 1 := by
      rw [div_le_one h0]
      exact_mod_cast h
    calc (count : ℚ) / total * 100 ≤ 1 * 100 :=
        mul_le_mul_of_nonneg_right h1 (by norm_num)
      _ = 100 := by norm_num
  · norm_num

/-- Progress is exactly 100 when every item is attempted. -/
theorem loadingProgress_total {total : Nat} (h : 0 < total) :
    loadingProgress total total = 100 := by
  unfold loadingProgress
  rw [if_pos h]
  have h0 : (total : ℚ) ≠ 0 := by
    have : (0 : ℚ) < total := by exact_mod_cast h
    exact ne_of_gt this
  rw [div_self h0]
  norm_num

/-- Two distinct lists containing each other have the same length. -/
theorem length_eq_of_subset_nodup {l1 l2 : List String} (h1 : l1.Nodup) (h2 : l2.Nodup)
    (s1 : ∀ x ∈ l1, x ∈ l2) (s2 : ∀ x ∈ l2, x ∈ l1) : l1.length = l2.length := by
  have e : l1.toFinset = l2.toFinset := by
    ext x
    simp only [List.mem_toFinset]
    exact ⟨fun h => s1 x h, fun h => s2 x h⟩
  calc l1.length = l1.toFinset.card := (List.toFinset_card_of_nodup h1).symm
    _ = l2.toFinset.card := by rw [e]
    _ = l2.length := List.toFinset_card_of_nodup h2

/-- Claim C9 (counterexample).  The claim says progress reaches exactly
100 once every item has settled, for every fixed item set.
`useFastAlbumCovers` counts distinct attempted canonical keys against
the number of items: for an item set holding two songs with the same
(artist, title) — distinct ids — both items settle after one attempt of
their shared key, and progress stays at 50, never 100. -/
theorem c9_duplicate_keys_cap_progress :
    (runAttempts []
      (([⟨"1", "Anti-Hero", "Taylor Swift", "", "y1", none, none⟩,
         ⟨"2", "Anti-Hero", "Taylor Swift", "", "y2", none, none⟩] : List Song).map
        getCacheKey)).length = 1 ∧
    loadingProgress 1 2 = 50 ∧ (50 : ℚ) ≠ 100 := by
  refine ⟨by decide, ?_, by norm_num⟩
  unfold loadingProgress
  norm_num

/-- Claim C9 (amended): for a fixed item set whose canonical keys are
pairwise distinct, `useFastAlbumCovers` progress is a percentage in
[0, 100]; it is non-decreasing as settled keys accumulate (the
`attemptedLoads` set only grows, counting both successful and fallback
settlements, and the hook has no cache clear); and it reaches exactly
100 once every item's key has been attempted. -/
theorem c9_progress_bounds_monotone_complete (songs : List Song) (trace : List String)
    (k : String) (htr : ∀ x ∈ trace, x ∈ songs.map getCacheKey) :
    0 ≤ loadingProgress (runAttempts [] trace).length songs.length ∧
    loadingProgress (runAttempts [] trace).length songs.length ≤ 100 ∧
    loadingProgress (runAttempts [] trace).length songs.length ≤
      loadingProgress (runAttempts [] (trace ++ [k])).length songs.length ∧
    ((songs.map getCacheKey).Nodup →
      (∀ s ∈ songs, getCacheKey s ∈ runAttempts [] trace) →
      0 < songs.length →
      loadingProgress (runAttempts [] trace).length songs.length = 100) := by
  have hnodup : (runAttempts [] trace).Nodup := runAttempts_nodup trace List.nodup_nil
  have hsub : ∀ x ∈ runAttempts [] trace, x ∈ songs.map getCacheKey := by
    intro x hx
    rcases mem_runAttempts hx with h | h
    · exact absurd h (List.not_mem_nil x)
    · exact htr x h
  have hlen : (runAttempts [] trace).length ≤ songs.length := by
    calc (runAttempts [] trace).length = (runAttempts [] trace).toFinset.card :=
        (List.toFinset_card_of_nodup hnodup).symm
      _ ≤ (songs.map getCacheKey).toFinset.card := Finset.card_le_card (by
          intro x hx
          rw [List.mem_toFinset] at hx ⊢
          exact hsub x hx)
      _ ≤ (songs.map getCacheKey).length := List.toFinset_card_le _
      _ = songs.length := by rw [List.length_map]
  refine ⟨loadingProgress_nonneg _ _, loadingProgress_le_100 hlen, ?_, ?_⟩
  · rw [runAttempts_append_singleton]
    exact loadingProgress_mono (length_le_markAttempted _ _)
  · intro hkeys hall hpos
    have heq : (runAttempts [] trace).length = songs.length := by
      have hl := length_eq_of_subset_nodup hnodup hkeys hsub (by
        intro x hx
        rcases List.mem_map.mp hx with ⟨s, hs, rfl⟩
        exact hall s hs)
      rw [hl, List.length_map]
    rw [heq]
    exact loadingProgress_total hpos

/-- Claim C9 witness: one item, its key attempted, progress 100. -/
theorem c9_progress_witness :
    loadingProgress (runAttempts []
        [getCacheKey ⟨"1", "Anti-Hero", "Taylor Swift", "", "y", none, none⟩]).length
      ([⟨"1", "Anti-Hero", "Taylor Swift", "", "y", none, none⟩] : List Song).length = 100 :=
  (c9_progress_bounds_monotone_complete
    [⟨"1", "Anti-Hero", "Taylor Swift", "", "y", none, none⟩]
    [getCacheKey ⟨"1", "Anti-Hero", "Taylor Swift", "", "y", none, none⟩]
    (getCacheKey ⟨"1", "Anti-Hero", "Taylor Swift", "", "y", none, none⟩)
    (by simp)).2.2.2 (by simp) (by decide) (by simp)

/-! ## Claim C10: the bulk cover updater only changes the artwork -/

/-- The update loop preserves the number and order of albums. -/
theorem updateCoversFrom_length (outcomes : Nat → LookupOutcome) (start : Nat)
    (albums : List AlbumData) :
    (updateCoversFrom outcomes start albums).length = albums.length := by
  induction albums generalizing start with
  | nil => rfl
  | cons a rest ih => simp [updateCoversFrom, ih]

/-- The element at position `i` of the updated list. -/
theorem updateCoversFrom_getElem? (outcomes : Nat → LookupOutcome) (start i : Nat)
    (albums : List AlbumData) (a : AlbumData) (h : albums[i]? = some a) :
    (updateCoversFrom outcomes start albums)[i]? =
      some { a with albumCover := coverFor a (outcomes (start + i)) } := by
  induction albums generalizing start i with
  | nil => simp at h
  | cons hd tl ih =>
    cases i with
    | zero =>
      have ha : hd = a := by simpa using h
      subst ha
      simp [updateCoversFrom]
    | succ j =>
      have h' : tl[j]? = some a := by simpa using h
      have hrec := ih (start + 1) j h'
      rw [show start + 1 + j = start + (j + 1) from by omega] at hrec
      show (updateCoversFrom outcomes start (hd :: tl))[j + 1]? = _
      rw [updateCoversFrom, List.getElem?_cons_succ]
      exact hrec

/-- Claim C10: `updateSpecificCovers` (and `updateAllCovers`, the same
loop over the fixed database) returns a list of the same length and
order in which each output album keeps the id, title, artist, youtubeId,
albumName and year of the corresponding input album, and only
`albumCover` is replaced — by the looked-up artwork when the lookup
found one, and by the deterministic fallback when it returned nothing or
threw. -/
theorem c10_updater_preserves_fields (albums : List AlbumData)
    (outcomes : Nat → LookupOutcome) :
    (updateSpecificCovers albums outcomes).length = albums.length ∧
    ∀ (i : Nat) (a : AlbumData), albums[i]? = some a →
      ∃ b, (updateSpecificCovers albums outcomes)[i]? = some b ∧
        b.id = a.id ∧ b.title = a.title ∧ b.artist = a.artist ∧
        b.youtubeId = a.youtubeId ∧ b.albumName = a.albumName ∧ b.year = a.year ∧
        b.albumCover = coverFor a (outcomes i) := by
  refine ⟨updateCoversFrom_length outcomes 0 albums, ?_⟩
  intro i a h
  refine ⟨{ a with albumCover := coverFor a (outcomes i) }, ?_,
    rfl, rfl, rfl, rfl, rfl, rfl, rfl⟩
  have hrec := updateCoversFrom_getElem? outcomes 0 i albums a h
  simpa using hrec

/-- Claim C10 witness: a one-album list whose lookup throws gets the
fallback cover and keeps every other field. -/
theorem c10_updater_preserves_fields_witness :
    ∃ b, (updateSpecificCovers
        [⟨"1", "Anti-Hero", "Taylor Swift", "y", "", none, none⟩]
        (fun _ => LookupOutcome.errored))[0]? = some b ∧
      b.id = "1" ∧ b.title = "Anti-Hero" ∧ b.artist = "Taylor Swift" ∧
      b.youtubeId = "y" ∧ b.albumName = none ∧ b.year = none ∧
      b.albumCover = coverFor ⟨"1", "Anti-Hero", "Taylor Swift", "y", "", none, none⟩
        LookupOutcome.errored :=
  (c10_updater_preserves_fields
    [⟨"1", "Anti-Hero", "Taylor Swift", "y", "", none, none⟩]
    (fun _ => LookupOutcome.errored)).2 0
    ⟨"1", "Anti-Hero", "Taylor Swift", "y", "", none, none⟩ rfl

end HouseOfGlen
